import Mathlib

/-!
Verification of the lazyadmin control plane against its specification.

The Go sources of the repository are shallowly embedded below, package by
package:

* `internal/config`   — the data model (users, resources, operations, tasks)
  and the `Load` entry point.
* `internal/tasks`    — the task runner (`Run`, `stepOnErrorFromTask`) with
  its two-level error policy.
* `internal/auth`     — identity resolution (`CurrentSSHUser`,
  `ResolvePrincipal`, `HasRole`, `HasAnyRole`) and the FIDO2 verifier
  (`RequireFIDO2Assertion`, `verifyFIDO2Signature`).
* `internal/clients`  — the scalar SQL query wrapper (`RunScalarQuery`),
  with the `database/sql` row semantics made explicit.
* `internal/openapi`  — operation-id generation (`sanitizePath` and the id
  construction of `generateForBackend`).
* `internal/ui`       — the operation dispatcher (`runOperation`) and the
  role-based list filters (`operationsToItems`).

External effects (HTTP transport, Postgres driver, the FIDO2 device and the
cryptographic primitives, environment variables) are passed in as explicit
oracles, exactly at the boundary where the Go code calls into a library.
-/

namespace LazyAdmin

/-! ## Data model (internal/config/config.go) -/

/-- `config.YubiKeyCredential`: one hardware credential bound to a user. -/
structure YubiKeyCredential where
  rpId : String
  credentialId : String
  publicKey : String
deriving DecidableEq, Repr

/-- `config.User`. -/
structure User where
  id : String
  sshUsers : List String
  roles : List String
  yubiKeyCreds : List YubiKeyCredential
deriving DecidableEq, Repr

/-- `config.HTTPResource`. -/
structure HTTPResource where
  baseURL : String
deriving DecidableEq, Repr

/-- `config.PostgresResource`. -/
structure PostgresResource where
  dsnEnv : String
deriving DecidableEq, Repr

/-- `config.Operation`.  The `type` field is the tag ("http" or "postgres");
`method`/`path` are used by HTTP operations and `query` by Postgres ones. -/
structure Operation where
  id : String
  label : String
  type : String
  target : String
  method : String
  path : String
  query : String
  allowedRoles : List String
deriving DecidableEq, Repr

/-- `config.TaskStep`.  `onError` is one of "", "inherit", "fail", "warn",
"continue" (YAML supplies a plain string, so it is kept as `String`). -/
structure TaskStep where
  id : String
  type : String
  resource : String
  method : String
  path : String
  query : String
  seconds : Nat
  onError : String
deriving DecidableEq, Repr

/-- `config.Task`.  `onError` is "" (unset), "fail_fast" or "best_effort". -/
structure Task where
  id : String
  label : String
  allowedRoles : List String
  riskLevel : String
  requireYubiKey : Bool
  onError : String
  steps : List TaskStep
  summaryTemplate : String
deriving DecidableEq, Repr

/-- `config.AuthConfig`. -/
structure AuthConfig where
  requireYubiKey : Bool
  yubiKeyMode : String
deriving DecidableEq, Repr

/-- `config.Config`: the whole catalog.  The Go resource maps are modelled
as association lists of (name, resource). -/
structure Config where
  project : String
  env : String
  auth : AuthConfig
  users : List User
  httpResources : List (String × HTTPResource)
  pgResources : List (String × PostgresResource)
  operations : List Operation
  tasks : List Task
deriving DecidableEq, Repr

/-- `config.Load` after the file read: the YAML-parse outcome is passed in
(the file system and the YAML library are external).  The Go function
returns the parsed document unchanged — it contains no validation pass
between `yaml.Unmarshal` and `return &cfg, nil`. -/
def Load (parsed : Except String Config) : Except String Config :=
  match parsed with
  | Except.error e => Except.error ("parse config: " ++ e)
  | Except.ok cfg => Except.ok cfg

/-- Spec-side definition, for comparison with `Load` (§3, invariant I2, as
the spec words it): every operation `target` references a declared resource
of the matching kind. -/
def specInvariantI2 (cfg : Config) : Bool :=
  cfg.operations.all fun op =>
    if op.type = "http" then cfg.httpResources.any fun r => r.1 = op.target
    else if op.type = "postgres" then cfg.pgResources.any fun r => r.1 = op.target
    else true

/-- Spec-side definition, for comparison with `Load` (§3, invariant I4, as
the spec words it): each user has at least one SSH user and one role. -/
def specInvariantI4 (cfg : Config) : Bool :=
  cfg.users.all fun u => !u.sshUsers.isEmpty && !u.roles.isEmpty

/-! ## Task runner (internal/tasks/tasks.go) -/

/-- `tasks.StepResult`. -/
structure StepResult where
  step : TaskStep
  ok : Bool
  output : String
  err : Option String
deriving DecidableEq, Repr

/-- `tasks.TaskResult`.  The Go `Steps` map, which is only ever extended
with fresh step ids, is modelled as the association list of insertions. -/
structure TaskResult where
  success : Bool
  stepOrder : List String
  steps : List (String × StepResult)
deriving DecidableEq, Repr

/-- `tasks.stepOnErrorFromTask`: resolve an inherited step policy from the
task policy. -/
def stepOnErrorFromTask (taskPolicy : String) : String :=
  if taskPolicy = "fail_fast" then "fail"
  else if taskPolicy = "best_effort" then "continue"
  else "fail"

/-- The step policy computed inside `Runner.Run`'s loop: the declared
policy, with "" and "inherit" resolved against the task policy. -/
def effectivePolicy (taskPolicy : String) (st : TaskStep) : String :=
  if st.onError = "" || st.onError = "inherit" then stepOnErrorFromTask taskPolicy
  else st.onError

/-- The task-level policy computed at the top of `Runner.Run`: "" defaults
to "fail_fast". -/
def taskPolicy (task : Task) : String :=
  if task.onError = "" then "fail_fast" else task.onError

/-- The loop body of `Runner.Run`.  `exec` stands for `Runner.runStep`
applied to the ambient context and clients: what each step returns is
external input here.  Each iteration appends the step id to the order,
records the outcome, and on a failure branches on the effective policy
exactly as the Go `if` chain does (fail: mark failure and break; warn:
mark failure and continue; anything else: continue unchanged). -/
def runLoop (exec : TaskStep → StepResult) (tp : String) :
    List TaskStep → Bool → List String → List (String × StepResult) → TaskResult
  | [], succ, ord, outs => ⟨succ, ord, outs⟩
  | st :: rest, succ, ord, outs =>
    let pol := effectivePolicy tp st
    let sr := exec st
    match sr.err with
    | some _ =>
      if pol = "fail" then ⟨false, ord ++ [st.id], outs ++ [(st.id, sr)]⟩
      else if pol = "warn" then
        runLoop exec tp rest false (ord ++ [st.id]) (outs ++ [(st.id, sr)])
      else runLoop exec tp rest succ (ord ++ [st.id]) (outs ++ [(st.id, sr)])
    | none => runLoop exec tp rest succ (ord ++ [st.id]) (outs ++ [(st.id, sr)])

/-- `tasks.Runner.Run`: initialize the result with `success = true`, then
iterate the steps.  (The audit-log writes inside the loop have their errors
discarded in the Go code and do not influence the control flow, so they are
not part of the returned value here.) -/
def Run (exec : TaskStep → StepResult) (task : Task) : TaskResult :=
  runLoop exec (taskPolicy task) task.steps true [] []

/-- A step at which `Runner.Run` stops: the step fails and its effective
policy is "fail". -/
def stepFailsStop (exec : TaskStep → StepResult) (tp : String) (st : TaskStep) : Bool :=
  (exec st).err.isSome && (effectivePolicy tp st == "fail")

/-- A step that fails under effective policy "warn". -/
def stepFailsWarn (exec : TaskStep → StepResult) (tp : String) (st : TaskStep) : Bool :=
  (exec st).err.isSome && (effectivePolicy tp st == "warn")

/-! ## Identity resolution (internal/auth/principal.go) -/

/-- `users.User` (the SQLite user-store row used as a fallback by the
superseding `ResolvePrincipal`). -/
structure DBUser where
  id : String
  sshUsers : List String
  roles : List String
deriving DecidableEq, Repr

/-- The user store injected into `ResolvePrincipal` (a SQLite-backed
`users.Store` in the Go code).  `findBySSH` stands for
`Store.FindUserBySSHUser` (`none` when the query errs) and `getCreds`
for `Store.GetCredentials` (the Go code treats a lookup error like an
empty list, so a total list-valued oracle is faithful). -/
structure UserStore where
  findBySSH : String → Option DBUser
  getCreds : String → List YubiKeyCredential

/-- The ambient identity inputs read by `auth.CurrentSSHUser`: the two
environment variables and the OS user name (`""` both for an unset
variable and for a failing or empty `user.Current()`). -/
structure Env where
  sshUser : String
  user : String
  osUser : String
deriving DecidableEq, Repr

/-- `auth.CurrentSSHUser`: first non-empty of SSH_USER, USER, the OS
user name, then the literal "unknown". -/
def CurrentSSHUser (env : Env) : String :=
  if env.sshUser ≠ "" then env.sshUser
  else if env.user ≠ "" then env.user
  else if env.osUser ≠ "" then env.osUser
  else "unknown"

/-- `auth.Principal` (the superseding version with the user-store
fallback). -/
structure Principal where
  configUser : Option User
  dbUser : Option DBUser
  sshUser : String
deriving DecidableEq, Repr

/-- `auth.ErrNoMatchingUser`. -/
def ErrNoMatchingUser : String := "no matching lazyadmin user for current SSH user"

/-- `auth.ResolvePrincipal`: scan the catalog users in declaration order
for one whose `sshUsers` contains the ambient identity (exact string
equality, first match wins); otherwise consult the user store when one is
provided; otherwise fail. -/
def ResolvePrincipal (cfg : Config) (store : Option UserStore) (env : Env) :
    Except String Principal :=
  let sshUser := CurrentSSHUser env
  match cfg.users.find? (fun u => u.sshUsers.contains sshUser) with
  | some u => Except.ok ⟨some u, none, sshUser⟩
  | none =>
    match store with
    | some st =>
      match st.findBySSH sshUser with
      | some dbUser =>
        Except.ok ⟨some ⟨dbUser.id, dbUser.sshUsers, dbUser.roles, st.getCreds dbUser.id⟩,
          some dbUser, sshUser⟩
      | none => Except.error ErrNoMatchingUser
    | none => Except.error ErrNoMatchingUser

/-- `auth.Principal.HasRole`: a role is held when it appears among the
config user's roles or among the DB user's roles. -/
def Principal.hasRole (p : Principal) (role : String) : Bool :=
  (match p.configUser with
   | some u => u.roles.contains role
   | none => false) ||
  (match p.dbUser with
   | some u => u.roles.contains role
   | none => false)

/-- `auth.Principal.HasAnyRole`. -/
def Principal.hasAnyRole (p : Principal) (roles : List String) : Bool :=
  roles.any p.hasRole

/-! ## FIDO2 verifier (internal/auth/fido2.go) -/

/-- `auth.AssertionResult`: what the device returns for an assertion.
Byte strings are modelled as lists of numbers. -/
structure AssertionResult where
  credentialId : String
  signature : List Nat
  authData : List Nat
deriving DecidableEq, Repr

/-- A public key as produced by `x509.ParsePKIXPublicKey`: either an
ECDSA key on a named curve, or a key of some other kind. -/
inductive ParsedPublicKey where
  | ecdsaKey (curve : String) (keyData : List Nat)
  | otherKey (kind : String)
deriving DecidableEq, Repr

/-- The cryptographic primitives `verifyFIDO2Signature` calls into,
injected as oracles: base64url decoding of the stored key, SPKI parsing,
SHA-256, and ASN.1/DER ECDSA verification. -/
structure Crypto where
  b64decode : String → Option (List Nat)
  parsePKIX : List Nat → Option ParsedPublicKey
  sha256 : List Nat → List Nat
  verifyASN1 : ParsedPublicKey → List Nat → List Nat → Bool

/-- `auth.ErrAssertionFailed`. -/
def ErrAssertionFailed : String := "YubiKey assertion failed"

/-- `auth.ErrNoMatchingCredID`. -/
def ErrNoMatchingCredID : String :=
  "assertion credential ID did not match any configured credential"

/-- `auth.ErrNoYubiCreds`. -/
def ErrNoYubiCreds : String := "user has no configured YubiKey credentials"

/-- `auth.verifyFIDO2Signature`: decode the stored base64url key, parse it
as SPKI, insist on an ECDSA key on P-256, hash
`authData ++ SHA-256(challenge)` and verify the DER signature over that
digest. -/
def verifyFIDO2Signature (crypto : Crypto) (assertion : AssertionResult)
    (publicKeyB64URL : String) (challenge : List Nat) : Except String Unit :=
  match crypto.b64decode publicKeyB64URL with
  | none => Except.error "decode public key"
  | some pubBytes =>
    match crypto.parsePKIX pubBytes with
    | none => Except.error "parse public key"
    | some pub =>
      match pub with
      | ParsedPublicKey.otherKey _ => Except.error "public key is not P-256 ECDSA"
      | ParsedPublicKey.ecdsaKey curve keyData =>
        if curve ≠ "P-256" then Except.error "public key is not P-256 ECDSA"
        else
          let clientHash := crypto.sha256 challenge
          let digest := crypto.sha256 (assertion.authData ++ clientHash)
          if crypto.verifyASN1 (ParsedPublicKey.ecdsaKey curve keyData) digest
              assertion.signature then Except.ok ()
          else Except.error ErrAssertionFailed

/-- `auth.RequireFIDO2Assertion` (libfido2 build): take the FIRST
configured credential, invoke the device capability (`performAssertion`,
injected as `device`) with that credential's rpId and credential id, then
require the returned credential id to equal the stored one before any
signature verification, and finally verify the signature against the
stored public key.  `challenge` stands for the 32 random bytes drawn from
the RNG. -/
def RequireFIDO2Assertion
    (device : String → List Nat → String → Except String AssertionResult)
    (crypto : Crypto) (challenge : List Nat) (user : User) : Except String Unit :=
  match user.yubiKeyCreds with
  | [] => Except.error ErrNoYubiCreds
  | cred :: _ =>
    match device cred.rpId challenge cred.credentialId with
    | Except.error e => Except.error ("fido2 assertion: " ++ e)
    | Except.ok assertion =>
      if assertion.credentialId ≠ cred.credentialId then
        Except.error ErrNoMatchingCredID
      else
        match verifyFIDO2Signature crypto assertion cred.publicKey challenge with
        | Except.error e => Except.error ("verify signature: " ++ e)
        | Except.ok _ => Except.ok ()

/-! ## SQL client (internal/clients/postgres.go) -/

/-- `clients.PostgresClient.RunScalarQuery`.  The query's result set is the
input: a list of rows, each a list of values of the driver's type `α`.
The Go code runs `QueryRowContext(...).Scan(&value)` with a single `any`
destination; per the `database/sql` contract that returns `sql.ErrNoRows`
on an empty result set, errs when the column count differs from the one
destination, and otherwise scans the FIRST row, silently discarding any
further rows.  `textOf` stands for the final `fmt.Sprintf` text coercion. -/
def RunScalarQuery {α : Type} (textOf : α → String) (rows : List (List α)) :
    Except String String :=
  match rows with
  | [] => Except.error "scan: sql: no rows in result set"
  | r :: _ =>
    match r with
    | [v] => Except.ok (textOf v)
    | _ =>
      Except.error
        ("scan: sql: expected 1 destination arguments in Scan, not " ++ toString r.length)

/-! ## OpenAPI projection (internal/openapi/openapi.go) -/

/-- The opening-brace character, written by code point. -/
def lbrace : Char := Char.ofNat 123

/-- The closing-brace character, written by code point. -/
def rbrace : Char := Char.ofNat 125

/-- `openapi.sanitizePath`: trim leading and trailing slashes, replace the
remaining slashes with underscores, strip both brace characters, and map
an empty result to "root". -/
def sanitizePath (path : String) : String :=
  let cs := path.data
  let cs := cs.dropWhile fun c => c = '/'
  let cs := (cs.reverse.dropWhile fun c => c = '/').reverse
  let cs := cs.map fun c => if c = '/' then '_' else c
  let cs := cs.filter fun c => !(c = lbrace || c = rbrace)
  if cs = [] then "root" else String.mk cs

/-- ASCII lowercasing, as `strings.ToLower` behaves on the ASCII method
names the OpenAPI library supplies. -/
def toLowerStr (s : String) : String := String.mk (s.data.map Char.toLower)

/-- The operation-id computation of `openapi.generateForBackend` (the body
of the per-operation loop): use the description's `operationId` when
non-empty, otherwise build `<method>_<backend>_<sanitized path>` with the
method lowercased; finally prepend the backend's id-prefix when it is
non-empty.  `pref` is `backend.OpIDPrefix` and `name` the backend name. -/
def generateOpID (pref name operationId method path : String) : String :=
  let opID :=
    if operationId = "" then toLowerStr method ++ "_" ++ name ++ "_" ++ sanitizePath path
    else operationId
  if pref = "" then opID else pref ++ opID

/-- Spec-side path sanitization, for comparison with `sanitizePath`,
written the way §4.8 of the specification describes it but by an
independent route: after trimming slashes the path is split into its
slash-separated segments which are rejoined with underscores, the brace
characters are removed, and an empty outcome becomes "root". -/
def splitOnSlash : List Char → List (List Char)
  | [] => [[]]
  | c :: rest =>
    if c = '/' then [] :: splitOnSlash rest
    else
      match splitOnSlash rest with
      | [] => [[c]]
      | s :: ss => (c :: s) :: ss

/-- Rejoin slash-separated segments with underscores (spec-side helper). -/
def joinUnderscore : List (List Char) → List Char
  | [] => []
  | [s] => s
  | s :: ss => s ++ '_' :: joinUnderscore ss

/-- Spec-side sanitization pipeline (see `splitOnSlash`). -/
def sanitizePathSpec (path : String) : String :=
  let cs := path.data
  let cs := cs.dropWhile fun c => c = '/'
  let cs := (cs.reverse.dropWhile fun c => c = '/').reverse
  let cs := joinUnderscore (splitOnSlash cs)
  let cs := cs.filter fun c => !(c = lbrace || c = rbrace)
  if cs = [] then "root" else String.mk cs

/-! ## Operation dispatch and visibility (internal/ui/model.go) -/

/-- One remote call issued while executing an operation. -/
inductive RemoteCall where
  | httpCall (target method path : String)
  | pgCall (target query : String)
deriving DecidableEq, Repr

/-- `logging.AuditEntry` as built by `runOperation` (the wall-clock `Time`
field set from `time.Now()` is external and omitted). -/
structure AuditEntry where
  userID : String
  sshUser : String
  operationID : String
  success : Bool
  error : String
deriving DecidableEq, Repr

/-- The transports available to the dispatcher: which resource names have
a configured client (`m.httpClients` / `m.pgClients` key sets), and what
each remote call returns. -/
structure Transport where
  httpTargets : List String
  httpResult : String → String → String → Except String String
  pgTargets : List String
  pgResult : String → String → Except String String

/-- What `ui.Model.runOperation`'s command produces: the
`operationResultMsg` fields, plus the remote calls it issued and the audit
entry it logged. -/
structure RunOpResult where
  output : String
  errMsg : String
  calls : List RemoteCall
  audit : AuditEntry
deriving Repr

/-- `ui.Model.runOperation`: dispatch purely on the operation's type and
target — the principal's roles are not consulted anywhere in the Go
function (only the user id and SSH user flow into the audit entry). -/
def runOperation (t : Transport) (userID sshUser : String) (op : Operation) :
    RunOpResult :=
  let dispatched : String × Option String × List RemoteCall :=
    if op.type = "http" then
      if t.httpTargets.contains op.target then
        match t.httpResult op.target op.method op.path with
        | Except.ok out => (out, none, [RemoteCall.httpCall op.target op.method op.path])
        | Except.error e => ("", some e, [RemoteCall.httpCall op.target op.method op.path])
      else ("", some ("no http resource named \"" ++ op.target ++ "\""), [])
    else if op.type = "postgres" then
      if t.pgTargets.contains op.target then
        match t.pgResult op.target op.query with
        | Except.ok out => (out, none, [RemoteCall.pgCall op.target op.query])
        | Except.error e => ("", some e, [RemoteCall.pgCall op.target op.query])
      else ("", some ("no postgres resource named \"" ++ op.target ++ "\""), [])
    else ("", some ("unsupported op type: " ++ op.type), [])
  let entry : AuditEntry :=
    ⟨userID, sshUser, op.id, dispatched.2.1.isNone,
      match dispatched.2.1 with
      | some e => e
      | none => ""⟩
  match dispatched.2.1 with
  | some e => ⟨"", e, dispatched.2.2, entry⟩
  | none => ⟨dispatched.1, "", dispatched.2.2, entry⟩

/-- The operation-list filters of the main view. -/
inductive FilterType where
  | filterAll
  | filterHTTP
  | filterPostgres
deriving DecidableEq, Repr

/-- The filter conditions inside `ui.operationsToItems`'s loop. -/
def filterAllows (f : FilterType) (opType : String) : Bool :=
  match f with
  | FilterType.filterAll => true
  | FilterType.filterHTTP => opType = "http"
  | FilterType.filterPostgres => opType = "postgres"

/-- `ui.operationsToItems`: the front-end's only role gate — an operation
is listed exactly when the principal holds one of its allowed roles and it
passes the type filter. -/
def operationsToItems (ops : List Operation) (p : Principal) (f : FilterType) :
    List Operation :=
  ops.filter fun op => p.hasAnyRole op.allowedRoles && filterAllows f op.type

/-! ## Lemmas about the task-runner loop -/

/-- Running the loop over steps that never trigger a stop appends every
step to the order and the outcome list; the final success flag is the
incoming one, cleared exactly when some step fails under effective policy
"warn". -/
theorem runLoop_total (exec : TaskStep → StepResult) (tp : String) :
    ∀ (l : List TaskStep) (succ : Bool) (ord : List String)
      (outs : List (String × StepResult)),
      (∀ s ∈ l, stepFailsStop exec tp s = false) →
      runLoop exec tp l succ ord outs =
        ⟨succ && !(l.any (stepFailsWarn exec tp)), ord ++ l.map TaskStep.id,
          outs ++ l.map fun s => (s.id, exec s)⟩ := by
  intro l
  induction l with
  | nil => intro succ ord outs _; simp [runLoop]
  | cons p rest ih =>
    intro succ ord outs hall
    have hp : stepFailsStop exec tp p = false := hall p (List.mem_cons_self _ _)
    have hrest : ∀ s ∈ rest, stepFailsStop exec tp s = false :=
      fun s hs => hall s (List.mem_cons_of_mem _ hs)
    cases he : (exec p).err with
    | none =>
      have hw0 : stepFailsWarn exec tp p = false := by simp [stepFailsWarn, he]
      simp only [runLoop, he]
      rw [ih succ (ord ++ [p.id]) (outs ++ [(p.id, exec p)]) hrest]
      simp [List.append_assoc, hw0]
    | some e =>
      have hnf : effectivePolicy tp p ≠ "fail" := by
        intro hcontra
        rw [stepFailsStop, he, hcontra] at hp
        simp at hp
      by_cases hw : effectivePolicy tp p = "warn"
      · have hw1 : stepFailsWarn exec tp p = true := by simp [stepFailsWarn, he, hw]
        simp only [runLoop, he]
        rw [if_neg hnf, if_pos hw]
        rw [ih false (ord ++ [p.id]) (outs ++ [(p.id, exec p)]) hrest]
        simp [List.append_assoc, hw1]
      · have hw0 : stepFailsWarn exec tp p = false := by simp [stepFailsWarn, hw]
        simp only [runLoop, he]
        rw [if_neg hnf, if_neg hw]
        rw [ih succ (ord ++ [p.id]) (outs ++ [(p.id, exec p)]) hrest]
        simp [List.append_assoc, hw0]

/-- Running the loop over a prefix of non-stopping steps followed by a
stopping step halts right there: success is cleared and the order and the
outcome list extend exactly through the stopping step, whatever follows. -/
theorem runLoop_stops (exec : TaskStep → StepResult) (tp : String) :
    ∀ (pre : List TaskStep) (st : TaskStep) (post : List TaskStep)
      (succ : Bool) (ord : List String) (outs : List (String × StepResult)),
      (∀ s ∈ pre, stepFailsStop exec tp s = false) →
      stepFailsStop exec tp st = true →
      runLoop exec tp (pre ++ st :: post) succ ord outs =
        ⟨false, ord ++ (pre ++ [st]).map TaskStep.id,
          outs ++ (pre ++ [st]).map fun s => (s.id, exec s)⟩ := by
  intro pre
  induction pre with
  | nil =>
    intro st post succ ord outs _ hst
    have h1 : (exec st).err.isSome = true ∧ (effectivePolicy tp st == "fail") = true := by
      simpa [stepFailsStop, Bool.and_eq_true] using hst
    obtain ⟨e, he⟩ := Option.isSome_iff_exists.mp h1.1
    have hf : effectivePolicy tp st = "fail" := by
      have := h1.2
      simpa using this
    simp [runLoop, he, hf]
  | cons p pre ih =>
    intro st post succ ord outs hpre hst
    have hp : stepFailsStop exec tp p = false := hpre p (List.mem_cons_self _ _)
    have hpre2 : ∀ s ∈ pre, stepFailsStop exec tp s = false :=
      fun s hs => hpre s (List.mem_cons_of_mem _ hs)
    cases he : (exec p).err with
    | none =>
      simp only [List.cons_append, runLoop, he, List.append_eq]
      rw [ih st post succ (ord ++ [p.id]) (outs ++ [(p.id, exec p)]) hpre2 hst]
      simp [List.append_assoc]
    | some e =>
      have hnf : effectivePolicy tp p ≠ "fail" := by
        intro hcontra
        rw [stepFailsStop, he, hcontra] at hp
        simp at hp
      by_cases hw : effectivePolicy tp p = "warn"
      · simp only [List.cons_append, runLoop, he, List.append_eq]
        rw [if_neg hnf, if_pos hw]
        rw [ih st post false (ord ++ [p.id]) (outs ++ [(p.id, exec p)]) hpre2 hst]
        simp [List.append_assoc]
      · simp only [List.cons_append, runLoop, he, List.append_eq]
        rw [if_neg hnf, if_neg hw]
        rw [ih st post succ (ord ++ [p.id]) (outs ++ [(p.id, exec p)]) hpre2 hst]
        simp [List.append_assoc]

/-! ## Claim theorems: task runner -/

/-- C4: in every task run, a failing step whose effective policy is "fail"
(declared fail, or inherit/unset under a fail-fast task, or declared fail
even under a best-effort task) sets the task result's success to false and
stops execution: the order and outcome list end at that step, and no later
step appears in either. -/
theorem C4_fail_policy_stops (exec : TaskStep → StepResult) (task : Task)
    (pre : List TaskStep) (st : TaskStep) (post : List TaskStep)
    (hsteps : task.steps = pre ++ st :: post)
    (hpre : ∀ s ∈ pre, stepFailsStop exec (taskPolicy task) s = false)
    (hst : stepFailsStop exec (taskPolicy task) st = true) :
    (Run exec task).success = false ∧
    (Run exec task).stepOrder = (pre ++ [st]).map TaskStep.id ∧
    (Run exec task).steps.map Prod.fst = (pre ++ [st]).map TaskStep.id ∧
    ∀ s2 ∈ post, s2.id ∉ (pre ++ [st]).map TaskStep.id →
      s2.id ∉ (Run exec task).stepOrder ∧ s2.id ∉ (Run exec task).steps.map Prod.fst := by
  have h := runLoop_stops exec (taskPolicy task) pre st post true [] [] hpre hst
  have hrun : Run exec task =
      ⟨false, (pre ++ [st]).map TaskStep.id, (pre ++ [st]).map fun s => (s.id, exec s)⟩ := by
    rw [Run, hsteps, h]
    simp
  have hmap : ((pre ++ [st]).map fun s => (s.id, exec s)).map Prod.fst =
      (pre ++ [st]).map TaskStep.id := by
    rw [List.map_map]
    rfl
  refine ⟨by rw [hrun], by rw [hrun], ?_, ?_⟩
  · rw [hrun]
    exact hmap
  · intro s2 _ hnot
    rw [hrun]
    exact ⟨hnot, by rw [show (⟨false, (pre ++ [st]).map TaskStep.id,
      (pre ++ [st]).map fun s => (s.id, exec s)⟩ : TaskResult).steps =
        (pre ++ [st]).map fun s => (s.id, exec s) from rfl, hmap]; exact hnot⟩

/-- C4 witness: a fail-fast task with three steps whose second step fails
with an inherited policy truncates the run after the second step. -/
theorem C4_fail_policy_stops_witness :
    let exec : TaskStep → StepResult := fun st =>
      if st.id = "s2" then ⟨st, false, "", some "resource unavailable"⟩
      else ⟨st, true, "HTTP 200 OK", none⟩
    let s1 : TaskStep := ⟨"s1", "http", "api", "GET", "/a", "", 0, ""⟩
    let s2 : TaskStep := ⟨"s2", "postgres", "db", "", "", "select 1", 0, "inherit"⟩
    let s3 : TaskStep := ⟨"s3", "http", "api", "GET", "/b", "", 0, ""⟩
    let task : Task := ⟨"t", "demo", ["admin"], "low", false, "fail_fast", [s1, s2, s3], ""⟩
    (Run exec task).success = false ∧
    (Run exec task).stepOrder = ["s1", "s2"] ∧
    "s3" ∉ (Run exec task).stepOrder ∧
    "s3" ∉ (Run exec task).steps.map Prod.fst := by
  intro exec s1 s2 s3 task
  have h := C4_fail_policy_stops exec task [s1] s2 [s3] rfl (by decide) (by decide)
  have hpost := h.2.2.2 s3 (by simp) (by decide)
  exact ⟨h.1, by rw [h.2.1]; rfl, hpost.1, hpost.2⟩

/-- C5: under a best-effort task with every step inheriting, all steps run
and the task result stays successful whatever the individual step results
are; and in any run that no step halts, every step runs and a failing step
with effective policy "warn" forces success to false. -/
theorem C5_best_effort_and_warn (exec : TaskStep → StepResult) (task : Task) :
    ((task.onError = "best_effort" →
      (∀ s ∈ task.steps, s.onError = "" ∨ s.onError = "inherit") →
      (Run exec task).success = true ∧
      (Run exec task).stepOrder = task.steps.map TaskStep.id ∧
      (Run exec task).steps.map Prod.fst = task.steps.map TaskStep.id)) ∧
    ((∀ s ∈ task.steps, stepFailsStop exec (taskPolicy task) s = false) →
      (Run exec task).stepOrder = task.steps.map TaskStep.id ∧
      ((∃ s ∈ task.steps, stepFailsWarn exec (taskPolicy task) s = true) →
        (Run exec task).success = false)) := by
  constructor
  · intro hbe hinh
    have htp : taskPolicy task = "best_effort" := by
      rw [taskPolicy, hbe]
      simp
    have hcont : ∀ s ∈ task.steps, effectivePolicy (taskPolicy task) s = "continue" := by
      intro s hs
      rcases hinh s hs with h | h <;>
        simp [effectivePolicy, h, htp, stepOnErrorFromTask]
    have hstop : ∀ s ∈ task.steps, stepFailsStop exec (taskPolicy task) s = false := by
      intro s hs
      simp [stepFailsStop, hcont s hs]
    have hwarn : task.steps.any (stepFailsWarn exec (taskPolicy task)) = false := by
      rw [List.any_eq_false]
      intro s hs
      simp [stepFailsWarn, hcont s hs]
    have h := runLoop_total exec (taskPolicy task) task.steps true [] [] hstop
    rw [Run, h, hwarn]
    refine ⟨rfl, by simp, ?_⟩
    simp only [List.nil_append, List.map_map]
    rfl
  · intro hstop
    have h := runLoop_total exec (taskPolicy task) task.steps true [] [] hstop
    constructor
    · rw [Run, h]
      simp
    · intro hex
      have hany : task.steps.any (stepFailsWarn exec (taskPolicy task)) = true := by
        rcases hex with ⟨s, hs, hw⟩
        exact List.any_eq_true.mpr ⟨s, hs, hw⟩
      rw [Run, h, hany]
      simp

/-- C5 witness: a best-effort all-inheriting task with a failing first
step still runs both steps and succeeds; a best-effort task whose first
step fails under declared policy "warn" runs both steps but fails. -/
theorem C5_best_effort_and_warn_witness :
    let execA : TaskStep → StepResult := fun st =>
      if st.id = "w1" then ⟨st, false, "", some "boom"⟩ else ⟨st, true, "ok", none⟩
    let a1 : TaskStep := ⟨"w1", "http", "api", "GET", "/a", "", 0, ""⟩
    let a2 : TaskStep := ⟨"w2", "http", "api", "GET", "/b", "", 0, "inherit"⟩
    let taskA : Task := ⟨"ta", "A", ["admin"], "low", false, "best_effort", [a1, a2], ""⟩
    let b1 : TaskStep := ⟨"w1", "http", "api", "GET", "/a", "", 0, "warn"⟩
    let b2 : TaskStep := ⟨"w2", "http", "api", "GET", "/b", "", 0, "continue"⟩
    let taskB : Task := ⟨"tb", "B", ["admin"], "low", false, "best_effort", [b1, b2], ""⟩
    ((Run execA taskA).success = true ∧ (Run execA taskA).stepOrder = ["w1", "w2"]) ∧
    ((Run execA taskB).stepOrder = ["w1", "w2"] ∧ (Run execA taskB).success = false) := by
  intro execA a1 a2 taskA b1 b2 taskB
  constructor
  · have h := (C5_best_effort_and_warn execA taskA).1 rfl (by decide)
    exact ⟨h.1, by rw [h.2.1]; rfl⟩
  · have h := (C5_best_effort_and_warn execA taskB).2 (by decide)
    refine ⟨by rw [h.1]; rfl, h.2 ⟨b1, by simp, by decide⟩⟩

/-! ## Claim theorems: identity resolution -/

/-- A first-match lemma for `List.find?`: if the predicate misses every
element of a prefix and hits `u`, the search returns `u`. -/
theorem findFirstOfPrefixMiss {α : Type} (p : α → Bool) :
    ∀ (pre : List α) (u : α) (post : List α),
      (∀ v ∈ pre, p v = false) → p u = true →
      (pre ++ u :: post).find? p = some u := by
  intro pre
  induction pre with
  | nil =>
    intro u post _ hu
    simp [List.find?_cons, hu]
  | cons a pre ih =>
    intro u post hpre hu
    have ha : p a = false := hpre a (List.mem_cons_self _ _)
    simp [List.find?_cons, ha,
      ih u post (fun v hv => hpre v (List.mem_cons_of_mem _ hv)) hu]

/-- C6: the ambient identity is the first non-empty of SSH_USER, USER and
the OS user name, else "unknown"; resolution returns the first catalog user
(declaration order) whose `sshUsers` contains that string exactly, and when
no catalog user matches and the user-store fallback yields nothing (or no
store is configured) it fails with the no-matching-user error. -/
theorem C6_identity_resolution (cfg : Config) (store : Option UserStore) (env : Env) :
    (env.sshUser ≠ "" → CurrentSSHUser env = env.sshUser) ∧
    (env.sshUser = "" → env.user ≠ "" → CurrentSSHUser env = env.user) ∧
    (env.sshUser = "" → env.user = "" → env.osUser ≠ "" →
      CurrentSSHUser env = env.osUser) ∧
    (env.sshUser = "" → env.user = "" → env.osUser = "" →
      CurrentSSHUser env = "unknown") ∧
    (∀ pre u post, cfg.users = pre ++ u :: post →
      (∀ v ∈ pre, v.sshUsers.contains (CurrentSSHUser env) = false) →
      u.sshUsers.contains (CurrentSSHUser env) = true →
      ResolvePrincipal cfg store env = Except.ok ⟨some u, none, CurrentSSHUser env⟩) ∧
    ((∀ v ∈ cfg.users, v.sshUsers.contains (CurrentSSHUser env) = false) →
      (store = none ∨ ∃ st, store = some st ∧
        st.findBySSH (CurrentSSHUser env) = none) →
      ResolvePrincipal cfg store env = Except.error ErrNoMatchingUser) := by
  refine ⟨?_, ?_, ?_, ?_, ?_, ?_⟩
  · intro h
    simp [CurrentSSHUser, h]
  · intro h1 h2
    simp [CurrentSSHUser, h1, h2]
  · intro h1 h2 h3
    simp [CurrentSSHUser, h1, h2, h3]
  · intro h1 h2 h3
    simp [CurrentSSHUser, h1, h2, h3]
  · intro pre u post husers hpre hu
    have hfind := findFirstOfPrefixMiss
      (fun v => v.sshUsers.contains (CurrentSSHUser env)) pre u post hpre hu
    simp only [ResolvePrincipal, husers, hfind]
  · intro hmiss hstore
    have hfind : cfg.users.find?
        (fun v => v.sshUsers.contains (CurrentSSHUser env)) = none := by
      rw [List.find?_eq_none]
      intro v hv
      simpa using hmiss v hv
    rcases hstore with h | ⟨st, hst, hnone⟩
    · simp only [ResolvePrincipal, hfind, h]
    · simp only [ResolvePrincipal, hfind, hst, hnone]

/-- C6 witness: with SSH_USER set to "alice-dev" the second catalog user
(whose `sshUsers` contains that entry) is selected, skipping the first;
with an unmatched identity and no store, resolution fails. -/
theorem C6_identity_resolution_witness :
    let bob : User := ⟨"bob", ["bob"], ["dev"], []⟩
    let alice : User := ⟨"alice", ["alice", "alice-dev"], ["admin"], []⟩
    let cfg : Config := ⟨"p", "dev", ⟨false, ""⟩, [bob, alice], [], [], [], []⟩
    let env : Env := ⟨"alice-dev", "bob", ""⟩
    let envMiss : Env := ⟨"carol", "", ""⟩
    CurrentSSHUser env = "alice-dev" ∧
    ResolvePrincipal cfg none env = Except.ok ⟨some alice, none, "alice-dev"⟩ ∧
    ResolvePrincipal cfg none envMiss = Except.error ErrNoMatchingUser := by
  intro bob alice cfg env envMiss
  refine ⟨(C6_identity_resolution cfg none env).1 (by decide), ?_, ?_⟩
  · have h := (C6_identity_resolution cfg none env).2.2.2.2.1 [bob] alice []
      rfl (by decide) (by decide)
    exact h
  · exact (C6_identity_resolution cfg none envMiss).2.2.2.2.2
      (by decide) (Or.inl rfl)

/-! ## Claim theorems: FIDO2 verifier -/

/-- C7: whenever the device's assertion carries a credential id different
from the stored one, the verifier fails with the credential-mismatch
error, for every choice of cryptographic primitives — in particular even
when `verifyASN1` would accept the signature — so signature verification
never decides the outcome. -/
theorem C7_credential_mismatch
    (device : String → List Nat → String → Except String AssertionResult)
    (crypto : Crypto) (challenge : List Nat) (user : User)
    (cred : YubiKeyCredential) (rest : List YubiKeyCredential)
    (assertion : AssertionResult)
    (hcreds : user.yubiKeyCreds = cred :: rest)
    (hdev : device cred.rpId challenge cred.credentialId = Except.ok assertion)
    (hmismatch : assertion.credentialId ≠ cred.credentialId) :
    RequireFIDO2Assertion device crypto challenge user =
      Except.error ErrNoMatchingCredID := by
  simp [RequireFIDO2Assertion, hcreds, hdev, hmismatch]

/-- C7 witness: stored credential id "A", device answers with "B", and an
always-accepting signature verifier: the mismatch error still wins. -/
theorem C7_credential_mismatch_witness :
    let cred : YubiKeyCredential := ⟨"lazyadmin.local", "A", "pk"⟩
    let user : User := ⟨"alice", ["alice"], ["admin"], [cred]⟩
    let assertion : AssertionResult := ⟨"B", [1], [2]⟩
    let device : String → List Nat → String → Except String AssertionResult :=
      fun _ _ _ => Except.ok assertion
    let crypto : Crypto :=
      ⟨fun _ => some [0], fun _ => some (ParsedPublicKey.ecdsaKey "P-256" []),
        fun l => l, fun _ _ _ => true⟩
    RequireFIDO2Assertion device crypto [9] user =
      Except.error ErrNoMatchingCredID := by
  intro cred user assertion device crypto
  exact C7_credential_mismatch device crypto [9] user cred [] assertion
    rfl rfl (by decide)

/-- C8: signature verification succeeds exactly when the stored key
decodes, parses as an elliptic-curve key on P-256, and the DER signature
verifies over SHA-256(authData ++ SHA-256(challenge)); a stored key that
parses as a non-EC key, or as an EC key on another curve, is rejected with
the not-P-256 error. -/
theorem C8_signature_verification (crypto : Crypto) (assertion : AssertionResult)
    (pk : String) (challenge : List Nat) :
    (verifyFIDO2Signature crypto assertion pk challenge = Except.ok () ↔
      ∃ pubBytes curve keyData,
        crypto.b64decode pk = some pubBytes ∧
        crypto.parsePKIX pubBytes = some (ParsedPublicKey.ecdsaKey curve keyData) ∧
        curve = "P-256" ∧
        crypto.verifyASN1 (ParsedPublicKey.ecdsaKey curve keyData)
          (crypto.sha256 (assertion.authData ++ crypto.sha256 challenge))
          assertion.signature = true) ∧
    (∀ pubBytes kind, crypto.b64decode pk = some pubBytes →
      crypto.parsePKIX pubBytes = some (ParsedPublicKey.otherKey kind) →
      verifyFIDO2Signature crypto assertion pk challenge =
        Except.error "public key is not P-256 ECDSA") ∧
    (∀ pubBytes curve keyData, crypto.b64decode pk = some pubBytes →
      crypto.parsePKIX pubBytes = some (ParsedPublicKey.ecdsaKey curve keyData) →
      curve ≠ "P-256" →
      verifyFIDO2Signature crypto assertion pk challenge =
        Except.error "public key is not P-256 ECDSA") := by
  refine ⟨⟨?_, ?_⟩, ?_, ?_⟩
  · intro h
    cases hb : crypto.b64decode pk with
    | none => simp [verifyFIDO2Signature, hb] at h
    | some pubBytes =>
      cases hp : crypto.parsePKIX pubBytes with
      | none => simp [verifyFIDO2Signature, hb, hp] at h
      | some pub =>
        cases pub with
        | otherKey k => simp [verifyFIDO2Signature, hb, hp] at h
        | ecdsaKey curve keyData =>
          by_cases hc : curve = "P-256"
          · subst hc
            by_cases hv : crypto.verifyASN1 (ParsedPublicKey.ecdsaKey "P-256" keyData)
                (crypto.sha256 (assertion.authData ++ crypto.sha256 challenge))
                assertion.signature = true
            · exact ⟨pubBytes, "P-256", keyData, rfl, hp, rfl, hv⟩
            · exfalso
              simp [verifyFIDO2Signature, hb, hp, hv] at h
          · exfalso
            simp [verifyFIDO2Signature, hb, hp, hc] at h
  · rintro ⟨pubBytes, curve, keyData, hb, hp, hc, hv⟩
    subst hc
    simp [verifyFIDO2Signature, hb, hp, hv]
  · intro pubBytes kind hb hp
    simp [verifyFIDO2Signature, hb, hp]
  · intro pubBytes curve keyData hb hp hc
    simp [verifyFIDO2Signature, hb, hp, hc]

/-- C8 witness: an accepting P-256 instance passes, an RSA-parsed key is
rejected, and a P-384 elliptic-curve key is rejected. -/
theorem C8_signature_verification_witness :
    let cryptoOK : Crypto :=
      ⟨fun _ => some [1], fun _ => some (ParsedPublicKey.ecdsaKey "P-256" [5]),
        fun l => 0 :: l, fun _ _ _ => true⟩
    let cryptoRSA : Crypto :=
      ⟨fun _ => some [1], fun _ => some (ParsedPublicKey.otherKey "RSA"),
        fun l => 0 :: l, fun _ _ _ => true⟩
    let cryptoP384 : Crypto :=
      ⟨fun _ => some [1], fun _ => some (ParsedPublicKey.ecdsaKey "P-384" [5]),
        fun l => 0 :: l, fun _ _ _ => true⟩
    let assertion : AssertionResult := ⟨"A", [7], [8]⟩
    verifyFIDO2Signature cryptoOK assertion "pk" [3] = Except.ok () ∧
    verifyFIDO2Signature cryptoRSA assertion "pk" [3] =
      Except.error "public key is not P-256 ECDSA" ∧
    verifyFIDO2Signature cryptoP384 assertion "pk" [3] =
      Except.error "public key is not P-256 ECDSA" := by
  intro cryptoOK cryptoRSA cryptoP384 assertion
  refine ⟨?_, ?_, ?_⟩
  · exact (C8_signature_verification cryptoOK assertion "pk" [3]).1.mpr
      ⟨[1], "P-256", [5], rfl, rfl, rfl, rfl⟩
  · exact (C8_signature_verification cryptoRSA assertion "pk" [3]).2.1
      [1] "RSA" rfl rfl
  · exact (C8_signature_verification cryptoP384 assertion "pk" [3]).2.2
      [1] "P-384" [5] rfl rfl (by decide)

/-- C10: with two or more configured credentials the verifier behaves
exactly as if only the first were configured — the assertion is requested
and checked against the first credential alone, so later (backup)
credentials can never satisfy verification. -/
theorem C10_first_credential_only
    (device : String → List Nat → String → Except String AssertionResult)
    (crypto : Crypto) (challenge : List Nat) (u : User)
    (c : YubiKeyCredential) (rest : List YubiKeyCredential)
    (_hrest : rest ≠ []) :
    RequireFIDO2Assertion device crypto challenge
        ⟨u.id, u.sshUsers, u.roles, c :: rest⟩ =
      RequireFIDO2Assertion device crypto challenge
        ⟨u.id, u.sshUsers, u.roles, [c]⟩ := rfl

/-- C10 witness: a user with a primary and a backup credential verifies
identically to one holding only the primary. -/
theorem C10_first_credential_only_witness :
    let c1 : YubiKeyCredential := ⟨"rp", "A", "pk1"⟩
    let c2 : YubiKeyCredential := ⟨"rp", "B", "pk2"⟩
    let device : String → List Nat → String → Except String AssertionResult :=
      fun _ _ cid => Except.ok ⟨cid, [1], [2]⟩
    let crypto : Crypto :=
      ⟨fun _ => some [0], fun _ => some (ParsedPublicKey.ecdsaKey "P-256" []),
        fun l => l, fun _ _ _ => true⟩
    RequireFIDO2Assertion device crypto [9] ⟨"u", ["u"], ["admin"], [c1, c2]⟩ =
      RequireFIDO2Assertion device crypto [9] ⟨"u", ["u"], ["admin"], [c1]⟩ := by
  intro c1 c2 device crypto
  exact C10_first_credential_only device crypto [9] ⟨"u", ["u"], ["admin"], []⟩
    c1 [c2] (by decide)

/-! ## Claim theorems: OpenAPI id generation -/

/-- Splitting on slashes never yields an empty segment list. -/
theorem splitOnSlash_ne_nil (l : List Char) : splitOnSlash l ≠ [] := by
  cases l with
  | nil => simp [splitOnSlash]
  | cons c rest =>
    simp only [splitOnSlash]
    by_cases hc : c = '/'
    · simp [hc]
    · rw [if_neg hc]
      cases hsplit : splitOnSlash rest <;> simp

/-- Rejoining after consing a non-slash character onto the first segment
conses that character onto the rejoined text. -/
theorem joinUnderscore_cons_cons (c : Char) (s : List Char) (ss : List (List Char)) :
    joinUnderscore ((c :: s) :: ss) = c :: joinUnderscore (s :: ss) := by
  cases ss with
  | nil => rfl
  | cons t ts => rfl

/-- Rejoining the slash-split segments with underscores is the same as
replacing every slash with an underscore. -/
theorem joinUnderscore_splitOnSlash (l : List Char) :
    joinUnderscore (splitOnSlash l) = l.map fun c => if c = '/' then '_' else c := by
  induction l with
  | nil => rfl
  | cons c rest ih =>
    obtain ⟨s, ss, hsplit⟩ : ∃ s ss, splitOnSlash rest = s :: ss := by
      cases h2 : splitOnSlash rest with
      | nil => exact absurd h2 (splitOnSlash_ne_nil rest)
      | cons s ss => exact ⟨s, ss, rfl⟩
    by_cases hc : c = '/'
    · subst hc
      have hsp : splitOnSlash ('/' :: rest) = [] :: splitOnSlash rest := by
        simp [splitOnSlash]
      rw [hsp, hsplit]
      have hjoin : joinUnderscore ([] :: s :: ss) = '_' :: joinUnderscore (s :: ss) := rfl
      rw [hjoin, ← hsplit, ih]
      simp
    · have hsp : splitOnSlash (c :: rest) = (c :: s) :: ss := by
        simp only [splitOnSlash, if_neg hc, hsplit]
      rw [hsp, joinUnderscore_cons_cons, ← hsplit, ih]
      simp [hc]

/-- The source's `sanitizePath` agrees everywhere with the spec-worded
pipeline `sanitizePathSpec`. -/
theorem sanitizePath_eq_spec (path : String) :
    sanitizePath path = sanitizePathSpec path := by
  rw [sanitizePath, sanitizePathSpec, joinUnderscore_splitOnSlash]

/-- C9: a projected operation's id is the description-supplied operation
id when one is present, and otherwise the lowercased method, the backend
name and the sanitized path joined by underscores — where sanitization
trims outer slashes, joins the slash-separated segments with underscores,
drops both brace characters and maps an empty result to "root" — and the
backend's id prefix, when non-empty, is prepended in either case. -/
theorem C9_generated_id (pref name oid method path : String) :
    (oid ≠ "" → generateOpID pref name oid method path = pref ++ oid) ∧
    generateOpID pref name "" method path =
      pref ++ (toLowerStr method ++ "_" ++ name ++ "_" ++ sanitizePathSpec path) := by
  constructor
  · intro h
    by_cases hp : pref = ""
    · subst hp
      simp [generateOpID, h]
    · simp [generateOpID, h, hp]
  · rw [← sanitizePath_eq_spec]
    by_cases hp : pref = ""
    · subst hp
      simp [generateOpID]
    · simp [generateOpID, hp]

/-- C9 witness: a supplied operation id gets the prefix prepended; without
one, GET on a templated path under backend "backend" yields
"get_backend_users_id"; an empty path maps to "root". -/
theorem C9_generated_id_witness :
    let templatedPath : String :=
      String.mk ['/', 'u', 's', 'e', 'r', 's', '/', lbrace, 'i', 'd', rbrace]
    generateOpID "x-" "backend" "customId" "GET" "/a" = "x-customId" ∧
    generateOpID "" "backend" "" "GET" templatedPath = "get_backend_users_id" ∧
    generateOpID "" "backend" "" "POST" "" = "post_backend_root" := by
  intro templatedPath
  refine ⟨?_, ?_, ?_⟩
  · have h := (C9_generated_id "x-" "backend" "customId" "GET" "/a").1 (by decide)
    rw [h]
    decide
  · have h := (C9_generated_id "" "backend" "" "GET" templatedPath).2
    rw [h]
    decide
  · have h := (C9_generated_id "" "backend" "" "POST" "").2
    rw [h]
    decide

/-! ## Claim theorems: operation execution and authorization -/

/-- C1 (counterexample): a principal holding only role "viewer" runs an
operation restricted to "admin" — the intersection of roles is empty, yet
`runOperation` issues the remote HTTP call and reports its output with no
error: no Unauthorized check happens in the executor. -/
theorem C1_counterexample :
    let p : Principal := ⟨some ⟨"bob", ["bob"], ["viewer"], []⟩, none, "bob"⟩
    let op : Operation := ⟨"restart", "Restart", "http", "api", "POST", "/restart", "", ["admin"]⟩
    let t : Transport :=
      ⟨["api"], fun _ _ _ => Except.ok "HTTP 200 OK", [], fun _ _ => Except.error "no db"⟩
    p.hasAnyRole op.allowedRoles = false ∧
    (runOperation t "bob" "bob" op).calls =
      [RemoteCall.httpCall "api" "POST" "/restart"] ∧
    (runOperation t "bob" "bob" op).errMsg = "" ∧
    (runOperation t "bob" "bob" op).output = "HTTP 200 OK" := by
  intro p op t
  exact ⟨by decide, rfl, rfl, rfl⟩

/-- C1 (amended): the executor performs no authorization check — whenever
the operation's type matches and its target has a configured client,
`runOperation` issues the remote call, whatever the principal's roles
(which it is not even passed); role gating happens only in the front-end
list filter, which includes exactly the operations whose allowed roles
intersect the principal's roles and that pass the type filter. -/
theorem C1_no_executor_auth_check (t : Transport) (userID sshUser : String)
    (op : Operation) :
    (op.type = "http" → t.httpTargets.contains op.target = true →
      (runOperation t userID sshUser op).calls =
        [RemoteCall.httpCall op.target op.method op.path]) ∧
    (op.type = "postgres" → t.pgTargets.contains op.target = true →
      (runOperation t userID sshUser op).calls =
        [RemoteCall.pgCall op.target op.query]) ∧
    (∀ (ops : List Operation) (p : Principal) (f : FilterType) (op2 : Operation),
      op2 ∈ operationsToItems ops p f ↔
        (op2 ∈ ops ∧ p.hasAnyRole op2.allowedRoles = true ∧
          filterAllows f op2.type = true)) := by
  refine ⟨?_, ?_, ?_⟩
  · intro h1 h2
    have hmem : op.target ∈ t.httpTargets := by simpa using h2
    cases hr : t.httpResult op.target op.method op.path <;>
      simp [runOperation, h1, hmem, hr]
  · intro h1 h2
    have hmem : op.target ∈ t.pgTargets := by simpa using h2
    have hne : op.type ≠ "http" := by
      rw [h1]
      decide
    cases hr : t.pgResult op.target op.query <;>
      simp [runOperation, h1, hmem, hr, hne]
  · intro ops p f op2
    simp [operationsToItems, List.mem_filter, and_assoc]

/-- C1 witness: with an operation visible to an admin principal, the
dispatcher issues exactly the HTTP call, and the filter lists the
operation for the admin. -/
theorem C1_no_executor_auth_check_witness :
    let t : Transport :=
      ⟨["api"], fun _ _ _ => Except.ok "HTTP 200 OK", [], fun _ _ => Except.error "no db"⟩
    let opA : Operation := ⟨"a", "A", "http", "api", "GET", "/a", "", ["admin"]⟩
    let pAdmin : Principal := ⟨some ⟨"alice", ["alice"], ["admin"], []⟩, none, "alice"⟩
    (runOperation t "alice" "alice" opA).calls =
      [RemoteCall.httpCall "api" "GET" "/a"] ∧
    opA ∈ operationsToItems [opA] pAdmin FilterType.filterAll := by
  intro t opA pAdmin
  refine ⟨(C1_no_executor_auth_check t "alice" "alice" opA).1 rfl (by decide), ?_⟩
  exact ((C1_no_executor_auth_check t "alice" "alice" opA).2.2
    [opA] pAdmin FilterType.filterAll opA).mpr ⟨by simp, by decide, by decide⟩

/-! ## Claim theorems: configuration load -/

/-- C2 (counterexample): a parsed document whose only user has no roles
(violating invariant I4) and whose operation targets an undeclared
resource (violating invariant I2) is returned by `Load` as a valid
catalog, with no ConfigError and no list of violations. -/
theorem C2_counterexample :
    let bad : Config :=
      ⟨"p", "dev", ⟨false, ""⟩, [⟨"alice", ["alice"], [], []⟩], [], [],
        [⟨"op1", "L", "http", "missing", "GET", "/", "", ["admin"]⟩], []⟩
    specInvariantI4 bad = false ∧
    specInvariantI2 bad = false ∧
    Load (Except.ok bad) = Except.ok bad := by
  intro bad
  exact ⟨by decide, by decide, rfl⟩

/-- C2 (amended): configuration load performs no invariant validation —
every successfully parsed document is returned unchanged as the catalog
(whether or not it satisfies the invariants), and a parse failure is the
only ConfigError ever produced. -/
theorem C2_load_no_validation (cfg : Config) (e : String) :
    Load (Except.ok cfg) = Except.ok cfg ∧
    Load (Except.error e) = Except.error ("parse config: " ++ e) :=
  ⟨rfl, rfl⟩

/-! ## Claim theorems: scalar SQL query -/

/-- C3 (counterexample): a result set of two single-column rows is not an
error — `RunScalarQuery` returns the first row's value and silently
discards the second row. -/
theorem C3_counterexample :
    RunScalarQuery (fun s : String => s) [["7"], ["8"]] = Except.ok "7" ∧
    ([["7"], ["8"]] : List (List String)).length = 2 :=
  ⟨rfl, rfl⟩

/-- C3 (amended): `RunScalarQuery` errs on an empty result set and on a
first row whose column count differs from one; otherwise it returns the
text coercion of the FIRST row's single value, ignoring any further
rows. -/
theorem C3_scalar_query (α : Type) (textOf : α → String) (rows : List (List α)) :
    (rows = [] →
      RunScalarQuery textOf rows = Except.error "scan: sql: no rows in result set") ∧
    (∀ r rest, rows = r :: rest → r.length ≠ 1 →
      RunScalarQuery textOf rows = Except.error
        ("scan: sql: expected 1 destination arguments in Scan, not " ++
          toString r.length)) ∧
    (∀ v rest, rows = [v] :: rest →
      RunScalarQuery textOf rows = Except.ok (textOf v)) := by
  refine ⟨?_, ?_, ?_⟩
  · intro h
    subst h
    rfl
  · intro r rest h hlen
    subst h
    match r with
    | [] => rfl
    | [v] => exact absurd rfl hlen
    | v :: w :: more => rfl
  · intro v rest h
    subst h
    rfl

/-- C3 witness: empty result set errs, a two-column row errs, a
single-value row returns the value, with or without extra rows. -/
theorem C3_scalar_query_witness :
    RunScalarQuery (fun s : String => s) [] =
      Except.error "scan: sql: no rows in result set" ∧
    RunScalarQuery (fun s : String => s) [["a", "b"]] =
      Except.error "scan: sql: expected 1 destination arguments in Scan, not 2" ∧
    RunScalarQuery (fun s : String => s) [["a"]] = Except.ok "a" := by
  refine ⟨(C3_scalar_query String (fun s => s) []).1 rfl, ?_,
    (C3_scalar_query String (fun s => s) [["a"]]).2.2 "a" [] rfl⟩
  have h := (C3_scalar_query String (fun s => s) [["a", "b"]]).2.1
    ["a", "b"] [] rfl (by decide)
  rw [h]
  rfl

end LazyAdmin
